import Mathlib

/-
  Shallow embedding of `src/Benders_Decomposition.py`.

  The Python file defines a class `BendersDecomposition` whose instance
  attributes form the iteration state, two model-building-and-solving
  methods (`solve_master_problem`, `solve_sub_problem`), and a `run` loop.
  The LP/MIP solver (gurobipy) is an external collaborator: we embed the
  *models the code builds* as data (variable declarations, constraint
  semantics, objective, solver parameters) and abstract the act of solving
  as an `Oracle` supplying an answer for each call.

  Numbers are embedded as exact rationals `ℚ`; the Python floats
  `float('inf')` / `float('-inf')` used for the bounds are embedded by the
  three-valued type `Bnd` below, with the comparison and `max` semantics of
  IEEE floats spelled out case by case.
-/

namespace Benders

/-- Python float values used for the bounds: `-inf`, a finite value, `+inf`. -/
inductive Bnd where
  | negInf : Bnd
  | val : ℚ → Bnd
  | posInf : Bnd
deriving DecidableEq

/-- `x ≤ y` on `Bnd`, as a boolean (used only to state monotonicity). -/
def Bnd.ble : Bnd → Bnd → Bool
  | .negInf, _ => true
  | .posInf, .posInf => true
  | .posInf, _ => false
  | .val _, .posInf => true
  | .val q, .val r => decide (q ≤ r)
  | .val _, .negInf => false

/-- Python `max` on the bound values that actually occur
(`max(self.LB, finite)` in line 85; the general table is IEEE `max`). -/
def Bnd.max : Bnd → Bnd → Bnd
  | .negInf, t => t
  | .posInf, _ => .posInf
  | .val q, .negInf => .val q
  | .val _, .posInf => .posInf
  | .val q, .val r => .val (Max.max q r)

/-- The loop guard `self.UB - self.LB > self.epsilon` (line 71) under
IEEE float semantics: `inf - inf = nan` and `nan > eps` is `False`;
`inf - x = inf > eps` is `True` for finite `eps`; `-inf - x` is `-inf`
or `nan`, never `> eps`. -/
def gapGT : Bnd → Bnd → ℚ → Bool
  | .posInf, .posInf, _ => false
  | .posInf, _, _ => true
  | .negInf, _, _ => false
  | .val _, .negInf, _ => true
  | .val _, .posInf, _ => false
  | .val q, .val r, eps => decide (eps < q - r)

/-- Sum of `f 0 + ... + f (n-1)`, the meaning of the Python
`quicksum(... for i in range(n))` expressions. -/
def sumTo (n : ℕ) (f : ℕ → ℚ) : ℚ := ((List.range n).map f).sum

/-- Gurobi variable type (`vtype` argument of `addVar`). -/
inductive VType where
  | integer : VType
  | continuous : VType
deriving DecidableEq

/-- Optimization sense of an objective. -/
inductive Sense where
  | maximize : Sense
  | minimize : Sense
deriving DecidableEq

/-- A declared model variable: its type and bounds.  `none` encodes an
infinite bound.  gurobipy `Model.addVar` defaults are `lb=0.0` and
`ub=GRB.INFINITY`, i.e. `lb = some 0`, `ub = none` here when the call
site does not override them. -/
structure VarDecl where
  vtype : VType
  lb : Option ℚ
  ub : Option ℚ
deriving DecidableEq

/-- The solver statuses the control loop distinguishes (lines 81, 84, 88):
`GRB.OPTIMAL`, `GRB.INFEASIBLE`, and anything else. -/
inductive SolverStatus where
  | optimal : SolverStatus
  | infeasible : SolverStatus
  | undefined : SolverStatus
deriving DecidableEq

/-- What `solve_sub_problem` returns to `run` (line 67):
`shadow_prices, model.Status, model.ObjVal`. -/
structure SubResult where
  duals : List ℚ
  status : SolverStatus
  objVal : ℚ

/-- The instance attributes set in `__init__` (lines 4-16) and mutated by
`run` (lines 69-99). -/
structure BendersDecomposition where
  fund_returns : List ℚ
  savings_account_return : ℚ
  number_of_funds : ℕ
  b : List ℚ
  B : List ℚ
  y_star : ℚ
  epsilon : ℚ
  LB : Bnd
  UB : Bnd
  iteration : ℕ
  feasibility_cuts : List (List ℚ)
  optimality_cuts : List (List ℚ)
deriving DecidableEq

/-- `__init__(fund_returns, savings_account_return, arbitary, total_budget,
epsilon=0.1)` (lines 4-16).  Python `//` on integers is floor division,
which is `Int.fdiv`.  The caller-supplied initial decision `arbitary` is
stored unvalidated in `y_star`. -/
def BendersDecomposition.init (fund_returns : List ℚ) (savings_account_return : ℚ)
    (arbitary : ℚ) (total_budget : ℤ) (epsilon : ℚ) : BendersDecomposition :=
  { fund_returns := fund_returns
    savings_account_return := savings_account_return
    number_of_funds := fund_returns.length
    b := (total_budget : ℚ) :: List.replicate fund_returns.length ((Int.fdiv total_budget 2 : ℤ) : ℚ)
    B := 1 :: List.replicate fund_returns.length 0
    y_star := arbitary
    epsilon := epsilon
    LB := Bnd.negInf
    UB := Bnd.posInf
    iteration := 0
    feasibility_cuts := []
    optimality_cuts := [] }

/-- The subproblem model built by `solve_sub_problem` (lines 53-60):
`n` continuous variables with default lower bound 0 and default upper
bound `+inf` (`addVars(n, vtype=GRB.CONTINUOUS, lb=0)`), the parameter
`InfUnbdInfo` set to 1, the budget constraint
`y_star + Σ investments[i] <= b[0]`, the per-fund constraints
`investments[i] <= b[i+1]`, and the objective
`maximize Σ fund_returns[i] * investments[i]`. -/
structure SubModel where
  vars : List VarDecl
  infUnbdInfo : Bool
  ystar : ℚ
  nfunds : ℕ
  budget : ℚ
  limits : List ℚ
  returns : List ℚ
  objSense : Sense
deriving DecidableEq

def subProblemModel (s : BendersDecomposition) (y_star : ℚ) : SubModel :=
  { vars := List.replicate s.number_of_funds ⟨VType.continuous, some 0, none⟩
    infUnbdInfo := true
    ystar := y_star
    nfunds := s.number_of_funds
    budget := s.b.getD 0 0
    limits := (List.range s.number_of_funds).map (fun i => s.b.getD (i + 1) 0)
    returns := s.fund_returns
    objSense := Sense.maximize }

/-- A point `inv` (values of the `investment` variables) satisfies the
subproblem model's variable bounds and constraints. -/
def subSat (m : SubModel) (inv : List ℚ) : Prop :=
  inv.length = m.nfunds ∧
  (∀ i, i < m.nfunds → 0 ≤ inv.getD i 0) ∧
  m.ystar + sumTo m.nfunds (fun i => inv.getD i 0) ≤ m.budget ∧
  (∀ i, i < m.nfunds → inv.getD i 0 ≤ m.limits.getD i 0)

/-- The subproblem objective value at a point. -/
def subObjVal (m : SubModel) (inv : List ℚ) : ℚ :=
  sumTo m.nfunds (fun i => m.returns.getD i 0 * inv.getD i 0)

/-- The master model built by `solve_master_problem` (lines 24-33):
variable `y` (`addVar(vtype=GRB.INTEGER, lb=0)`), variable `z`
(`addVar(vtype=GRB.CONTINUOUS)` — gurobipy default bounds, so `lb = 0`),
objective `maximize z` (coefficient 0 on `y`, 1 on `z`), one constraint per
stored feasibility cut and one per stored optimality cut. -/
structure MasterModel where
  vars : List VarDecl
  objSense : Sense
  objCoeffY : ℚ
  objCoeffZ : ℚ
  nfunds : ℕ
  b : List ℚ
  B : List ℚ
  sr : ℚ
  fcuts : List (List ℚ)
  ocuts : List (List ℚ)
deriving DecidableEq

def masterProblemModel (s : BendersDecomposition) : MasterModel :=
  { vars := [⟨VType.integer, some 0, none⟩, ⟨VType.continuous, some 0, none⟩]
    objSense := Sense.maximize
    objCoeffY := 0
    objCoeffZ := 1
    nfunds := s.number_of_funds
    b := s.b
    B := s.B
    sr := s.savings_account_return
    fcuts := s.feasibility_cuts
    ocuts := s.optimality_cuts }

/-- The cut expression the code builds for a dual vector `d` at decision
`y` (lines 30 and 33):
`quicksum((self.b[i] - self.B[i] * y) * dual_vars[i] for i in range(self.number_of_funds + 1))`. -/
def cutExpr (m : MasterModel) (d : List ℚ) (y : ℚ) : ℚ :=
  sumTo (m.nfunds + 1) (fun i => (m.b.getD i 0 - m.B.getD i 0 * y) * d.getD i 0)

/-- A point `(y, z)` satisfies the master model's variable domains and
constraints: `y` a non-negative integer, `z ≥ 0` (the gurobipy default
lower bound on `z`), every feasibility-cut constraint `cutExpr ≥ 0`
(line 30), every optimality-cut constraint
`z ≤ sr*y + cutExpr` (line 33). -/
def masterSat (m : MasterModel) (y z : ℚ) : Prop :=
  (∃ k : ℕ, y = (k : ℚ)) ∧ 0 ≤ y ∧ 0 ≤ z ∧
  (∀ d ∈ m.fcuts, 0 ≤ cutExpr m d y) ∧
  (∀ d ∈ m.ocuts, z ≤ m.sr * y + cutExpr m d y)

/-- The external LP/MIP solver, abstracted: for each call (indexed by the
iteration counter at the time of the call) it answers the model it is
handed.  `solveSub` answers with `(duals, status, objVal)` as read off the
gurobipy model in line 67; `solveMaster` answers with `(y.X, model.ObjVal)`
as in line 45. -/
structure Oracle where
  solveSub : ℕ → SubModel → SubResult
  solveMaster : ℕ → MasterModel → ℚ × ℚ

/-- The subproblem call the loop makes (line 79), after the iteration
counter was incremented in line 72. -/
def subCall (o : Oracle) (s : BendersDecomposition) : SubResult :=
  o.solveSub (s.iteration + 1) (subProblemModel s s.y_star)

/-- Lines 72-90 of `run`: increment the iteration counter, solve the
subproblem, and branch on its status.  `GRB.INFEASIBLE` appends the duals
to `feasibility_cuts`; `GRB.OPTIMAL` updates `LB` and appends to
`optimality_cuts`; any other status only prints (no state change). -/
def midState (o : Oracle) (s : BendersDecomposition) : BendersDecomposition :=
  let s1 : BendersDecomposition := { s with iteration := s.iteration + 1 }
  match (subCall o s).status with
  | SolverStatus.infeasible =>
      { s1 with feasibility_cuts := s1.feasibility_cuts ++ [(subCall o s).duals] }
  | SolverStatus.optimal =>
      { s1 with
        LB := Bnd.max s1.LB
          (Bnd.val (s1.savings_account_return * s1.y_star + (subCall o s).objVal))
        optimality_cuts := s1.optimality_cuts ++ [(subCall o s).duals] }
  | SolverStatus.undefined => s1

/-- The master call the loop makes (line 98): the model is built from the
*current* state — in particular from the full cut lists. -/
def masterCall (o : Oracle) (s : BendersDecomposition) : ℚ × ℚ :=
  o.solveMaster (midState o s).iteration (masterProblemModel (midState o s))

/-- One full body of the `while` loop (lines 72-99):
subproblem solve and branch, then
`self.y_star, self.UB = self.solve_master_problem()`. -/
def iterate (o : Oracle) (s : BendersDecomposition) : BendersDecomposition :=
  { midState o s with
    y_star := (masterCall o s).1
    UB := Bnd.val (masterCall o s).2 }

/-- The `while self.UB - self.LB > self.epsilon` loop of `run`
(lines 69-99), with explicit fuel.  The guard is tested before each
iteration; when it fails the loop exits and the final state is the run's
result. -/
def run (o : Oracle) : ℕ → BendersDecomposition → BendersDecomposition
  | 0, s => s
  | fuel + 1, s =>
      if gapGT s.UB s.LB s.epsilon then run o fuel (iterate o s) else s

/-- The unconditional iteration sequence (ignoring the guard); the states
`run` passes through are among these. -/
def steps (o : Oracle) (s : BendersDecomposition) : ℕ → BendersDecomposition
  | 0 => s
  | k + 1 => iterate o (steps o s k)

/-- What the finished run exposes to the caller: the final decision and
the final upper bound (the attributes printed in lines 104-105 and left
on the object). -/
def runResult (s : BendersDecomposition) : ℚ × Bnd := (s.y_star, s.UB)

/-! ## Spec-side formulations

These definitions follow the words of the specification, to be compared
with the embeddings of the source above. -/

/-- The cut expression as the spec writes it:
`Σ d_i·(b_i − B_i·y)`, the sum ranging over all `len(b)` entries. -/
def specCutExpr (s : BendersDecomposition) (d : List ℚ) (y : ℚ) : ℚ :=
  sumTo s.b.length (fun i => d.getD i 0 * (s.b.getD i 0 - s.B.getD i 0 * y))

/-- The master constraints as the spec words them: `y` integer and
non-negative, for every feasibility cut `d` the constraint
`Σ d_i·(b_i − B_i·y) ≥ 0`, for every optimality cut `d` the constraint
`z ≤ savingsReturn·y + Σ d_i·(b_i − B_i·y)` (plus the lower bound 0 the
built model actually places on `z`). -/
def specMasterSat (s : BendersDecomposition) (y z : ℚ) : Prop :=
  (∃ k : ℕ, y = (k : ℚ)) ∧ 0 ≤ y ∧ 0 ≤ z ∧
  (∀ d ∈ s.feasibility_cuts, 0 ≤ specCutExpr s d y) ∧
  (∀ d ∈ s.optimality_cuts, z ≤ s.savings_account_return * y + specCutExpr s d y)

/-- The subproblem constraints as the spec words them: one non-negative
variable per recourse resource, the Decision plus the sum of all recourse
variables at most the overall budget `b[0]`, and each recourse variable
`i` at most its individual limit `b[i+1]`. -/
def specSubFeasible (s : BendersDecomposition) (y : ℚ) (inv : List ℚ) : Prop :=
  inv.length = s.number_of_funds ∧
  (∀ i, i < s.number_of_funds → 0 ≤ inv.getD i 0) ∧
  y + sumTo s.number_of_funds (fun i => inv.getD i 0) ≤ s.b.getD 0 0 ∧
  (∀ i, i < s.number_of_funds → inv.getD i 0 ≤ s.b.getD (i + 1) 0)

/-- The subproblem objective as the spec words it: the weighted sum of the
recourse variables with the per-resource return coefficients. -/
def specSubObjective (s : BendersDecomposition) (inv : List ℚ) : ℚ :=
  sumTo s.number_of_funds (fun i => s.fund_returns.getD i 0 * inv.getD i 0)

/-- The oracle's answer to the master call made from state `s` is an exact
optimum of the model it was handed: it satisfies the model and dominates
every satisfying point.  This is the spec's contract for the external
Solver on the master solves of a run. -/
def MasterOptAt (o : Oracle) (s : BendersDecomposition) : Prop :=
  masterSat (masterProblemModel (midState o s)) (masterCall o s).1 (masterCall o s).2 ∧
  ∀ y z, masterSat (masterProblemModel (midState o s)) y z → z ≤ (masterCall o s).2

/-- Invariant carried by the upper bound: either no master solve has
happened yet (`UB = +inf`), or `UB` is an exact optimum of the master
model built from the current state. -/
def UBInv (s : BendersDecomposition) : Prop :=
  s.UB = Bnd.posInf ∨
  ∃ q, s.UB = Bnd.val q ∧
    (∃ y, masterSat (masterProblemModel s) y q) ∧
    (∀ y z, masterSat (masterProblemModel s) y z → z ≤ q)

/-! ## Helper lemmas about `sumTo` and list access -/

theorem sumTo_succ (n : ℕ) (f : ℕ → ℚ) : sumTo (n + 1) f = sumTo n f + f n := by
  simp [sumTo, List.range_succ]

theorem sumTo_congr {n : ℕ} {f g : ℕ → ℚ} (h : ∀ i, i < n → f i = g i) :
    sumTo n f = sumTo n g := by
  induction n with
  | zero => rfl
  | succ k ih =>
      rw [sumTo_succ, sumTo_succ, ih (fun i hi => h i (Nat.lt_succ_of_lt hi)),
        h k (Nat.lt_succ_self k)]

theorem sumTo_zero_fn (n : ℕ) : sumTo n (fun _ => (0 : ℚ)) = 0 := by
  induction n with
  | zero => rfl
  | succ k ih => rw [sumTo_succ, ih, add_zero]

theorem sumTo_eq_zero {n : ℕ} {f : ℕ → ℚ} (h : ∀ i, i < n → f i = 0) :
    sumTo n f = 0 := by
  rw [sumTo_congr h, sumTo_zero_fn]

theorem getD_map_range {n : ℕ} {i : ℕ} (f : ℕ → ℚ) (hi : i < n) :
    (((List.range n).map f).getD i 0) = f i := by
  rw [List.getD_eq_getElem?_getD, List.getElem?_map, List.getElem?_range hi]
  rfl

theorem getD_singleton_zero (i : ℕ) : ([(0 : ℚ)].getD i 0) = 0 := by
  match i with
  | 0 => rfl
  | _ + 1 => rfl

/-! ## Concrete oracles and states used as explicit inputs -/

/-- An oracle whose subproblem solves always report an undefined status
(neither `GRB.OPTIMAL` nor `GRB.INFEASIBLE`) and whose master solves
always answer `(7, 100)`. -/
def oU : Oracle :=
  { solveSub := fun _ _ => ⟨[], SolverStatus.undefined, 0⟩
    solveMaster := fun _ _ => (7, 100) }

/-- An oracle whose subproblem solves always report infeasibility with
dual ray `[1, 2, 3]` and whose master solves always answer `(7, 100)`. -/
def oInf : Oracle :=
  { solveSub := fun _ _ => ⟨[1, 2, 3], SolverStatus.infeasible, 0⟩
    solveMaster := fun _ _ => (7, 100) }

/-- An oracle whose subproblem solves always report optimality with dual
vector `[0]` and objective value 0, and whose master solves always answer
`(0, 0)`. -/
def oW : Oracle :=
  { solveSub := fun _ _ => ⟨[0], SolverStatus.optimal, 0⟩
    solveMaster := fun _ _ => (0, 0) }

/-- The state built by the constructor from the parameters of the
module-level demo (lines 108-115). -/
def sW : BendersDecomposition := BendersDecomposition.init [2, 6] 4 500 200 (1 / 10)

/-- The demo configuration with an out-of-domain (negative) initial
decision. -/
def sNeg : BendersDecomposition := BendersDecomposition.init [2, 6] 4 (-1) 200 (1 / 10)

/-- A mid-run state whose bound gap is already closed
(`UB − LB = 0 ≤ epsilon`). -/
def sC : BendersDecomposition :=
  { fund_returns := [2, 6]
    savings_account_return := 4
    number_of_funds := 2
    b := [200, 100, 100]
    B := [1, 0, 0]
    y_star := 3
    epsilon := 1 / 10
    LB := Bnd.val 0
    UB := Bnd.val 0
    iteration := 5
    feasibility_cuts := []
    optimality_cuts := [] }

/-- A mid-run state holding one feasibility cut and one optimality cut. -/
def sCuts : BendersDecomposition :=
  { fund_returns := [2, 6]
    savings_account_return := 4
    number_of_funds := 2
    b := [200, 100, 100]
    B := [1, 0, 0]
    y_star := 100
    epsilon := 1 / 10
    LB := Bnd.negInf
    UB := Bnd.val 900
    iteration := 2
    feasibility_cuts := [[1, 0, 0]]
    optimality_cuts := [[0, 1, 2]] }

/-- The configuration used to exercise the exact-solver hypothesis: no
funds, zero savings return, zero budget. -/
def sZ : BendersDecomposition := BendersDecomposition.init [] 0 0 0 1

/-! ## Field-preservation lemmas for one loop iteration and for the run -/

theorem midState_fund_returns (o : Oracle) (s : BendersDecomposition) :
    (midState o s).fund_returns = s.fund_returns := by
  cases h : (subCall o s).status <;> simp [midState, h]

theorem midState_sr (o : Oracle) (s : BendersDecomposition) :
    (midState o s).savings_account_return = s.savings_account_return := by
  cases h : (subCall o s).status <;> simp [midState, h]

theorem midState_nfunds (o : Oracle) (s : BendersDecomposition) :
    (midState o s).number_of_funds = s.number_of_funds := by
  cases h : (subCall o s).status <;> simp [midState, h]

theorem midState_b (o : Oracle) (s : BendersDecomposition) :
    (midState o s).b = s.b := by
  cases h : (subCall o s).status <;> simp [midState, h]

theorem midState_B (o : Oracle) (s : BendersDecomposition) :
    (midState o s).B = s.B := by
  cases h : (subCall o s).status <;> simp [midState, h]

theorem midState_y_star (o : Oracle) (s : BendersDecomposition) :
    (midState o s).y_star = s.y_star := by
  cases h : (subCall o s).status <;> simp [midState, h]

theorem midState_epsilon (o : Oracle) (s : BendersDecomposition) :
    (midState o s).epsilon = s.epsilon := by
  cases h : (subCall o s).status <;> simp [midState, h]

theorem midState_iteration (o : Oracle) (s : BendersDecomposition) :
    (midState o s).iteration = s.iteration + 1 := by
  cases h : (subCall o s).status <;> simp [midState, h]

theorem iterate_b (o : Oracle) (s : BendersDecomposition) :
    (iterate o s).b = s.b := midState_b o s

theorem iterate_B (o : Oracle) (s : BendersDecomposition) :
    (iterate o s).B = s.B := midState_B o s

theorem iterate_fund_returns (o : Oracle) (s : BendersDecomposition) :
    (iterate o s).fund_returns = s.fund_returns := midState_fund_returns o s

theorem iterate_sr (o : Oracle) (s : BendersDecomposition) :
    (iterate o s).savings_account_return = s.savings_account_return := midState_sr o s

theorem iterate_nfunds (o : Oracle) (s : BendersDecomposition) :
    (iterate o s).number_of_funds = s.number_of_funds := midState_nfunds o s

theorem iterate_epsilon (o : Oracle) (s : BendersDecomposition) :
    (iterate o s).epsilon = s.epsilon := midState_epsilon o s

theorem iterate_iteration (o : Oracle) (s : BendersDecomposition) :
    (iterate o s).iteration = s.iteration + 1 := midState_iteration o s

theorem run_b (o : Oracle) : ∀ (f : ℕ) (s : BendersDecomposition), (run o f s).b = s.b := by
  intro f
  induction f with
  | zero => intro s; rfl
  | succ k ih =>
      intro s
      cases hg : gapGT s.UB s.LB s.epsilon <;> simp [run, hg, ih, iterate_b]

theorem run_B (o : Oracle) : ∀ (f : ℕ) (s : BendersDecomposition), (run o f s).B = s.B := by
  intro f
  induction f with
  | zero => intro s; rfl
  | succ k ih =>
      intro s
      cases hg : gapGT s.UB s.LB s.epsilon <;> simp [run, hg, ih, iterate_B]

/-- C10 — the constructor derives `b = [T] ++ [T // 2] * n` (Python floor
division) and `B = [1] ++ [0] * n`, both of length `n + 1`, and neither
vector is ever modified by an iteration or by the run loop. -/
theorem c10_limits_and_coupling (fr : List ℚ) (sr y0 : ℚ) (T : ℤ) (ε : ℚ)
    (o : Oracle) (s : BendersDecomposition) (f : ℕ) :
    (BendersDecomposition.init fr sr y0 T ε).b
        = (T : ℚ) :: List.replicate fr.length ((Int.fdiv T 2 : ℤ) : ℚ) ∧
    (BendersDecomposition.init fr sr y0 T ε).B
        = 1 :: List.replicate fr.length 0 ∧
    (BendersDecomposition.init fr sr y0 T ε).b.length = fr.length + 1 ∧
    (BendersDecomposition.init fr sr y0 T ε).B.length = fr.length + 1 ∧
    (iterate o s).b = s.b ∧
    (iterate o s).B = s.B ∧
    (run o f s).b = s.b ∧
    (run o f s).B = s.B := by
  refine ⟨rfl, rfl, by simp [BendersDecomposition.init], by simp [BendersDecomposition.init],
    iterate_b o s, iterate_B o s, run_b o f s, run_B o f s⟩

/-- C4 counterexample — the claim says the surrogate variable `z` is free
(unbounded below as well as above); but the second variable of every
master model built by the code (`addVar(vtype=GRB.CONTINUOUS)`) carries
the gurobipy default lower bound 0, not `-inf`. -/
theorem c4_counterexample :
    (masterProblemModel sW).vars
        = [⟨VType.integer, some 0, none⟩, ⟨VType.continuous, some 0, none⟩] ∧
    ((masterProblemModel sW).vars.getD 1 ⟨VType.continuous, none, none⟩).lb = some 0 ∧
    ¬ ((masterProblemModel sW).vars.getD 1 ⟨VType.continuous, none, none⟩).lb = none := by
  refine ⟨rfl, rfl, by decide⟩

/-- C4 (amended) — every master model has exactly two decision variables:
`y` integer with lower bound 0 and no upper bound, and `z` continuous with
lower bound 0 (the solver default, not free below) and no upper bound;
the objective is maximize `z` (coefficient 0 on `y`, 1 on `z`). -/
theorem c4_master_variables (s : BendersDecomposition) :
    (masterProblemModel s).vars
        = [⟨VType.integer, some 0, none⟩, ⟨VType.continuous, some 0, none⟩] ∧
    (masterProblemModel s).vars.length = 2 ∧
    (masterProblemModel s).objSense = Sense.maximize ∧
    (masterProblemModel s).objCoeffY = 0 ∧
    (masterProblemModel s).objCoeffZ = 1 :=
  ⟨rfl, rfl, rfl, rfl, rfl⟩

/-- C3 counterexample — the caller supplies the out-of-domain initial
decision `-1`; the constructor accepts it and the first loop iteration
performs a subproblem solve (its infeasibility answer is recorded as a
cut), so the system does not fail before a solve is attempted. -/
theorem c3_counterexample :
    sNeg.y_star = -1 ∧
    (run oInf 1 sNeg).iteration = 1 ∧
    (run oInf 1 sNeg).feasibility_cuts = [[1, 2, 3]] := by
  decide

/-- C3 (amended) — the code performs no domain validation: any initial
decision (negative or non-integer included) is stored unvalidated by the
constructor, the loop guard holds at the initial bounds regardless, and
the first subproblem solve is issued with that decision embedded in its
model. -/
theorem c3_no_validation (fr : List ℚ) (sr y0 : ℚ) (T : ℤ) (ε : ℚ) (o : Oracle) :
    (BendersDecomposition.init fr sr y0 T ε).y_star = y0 ∧
    gapGT (BendersDecomposition.init fr sr y0 T ε).UB
        (BendersDecomposition.init fr sr y0 T ε).LB
        (BendersDecomposition.init fr sr y0 T ε).epsilon = true ∧
    (subProblemModel (BendersDecomposition.init fr sr y0 T ε) y0).ystar = y0 ∧
    subCall o (BendersDecomposition.init fr sr y0 T ε)
        = o.solveSub 1 (subProblemModel (BendersDecomposition.init fr sr y0 T ε) y0) :=
  ⟨rfl, rfl, rfl, rfl⟩

theorem subLimits_getD (s : BendersDecomposition) (y : ℚ) {i : ℕ}
    (hi : i < s.number_of_funds) :
    (subProblemModel s y).limits.getD i 0 = s.b.getD (i + 1) 0 := by
  simp only [subProblemModel]
  exact getD_map_range _ hi

/-- C9 — every subproblem model has one continuous variable per fund with
lower bound 0 and no upper bound, has the dual-ray diagnostics parameter
(`InfUnbdInfo`) enabled, its constraints are exactly the spec's
(decision plus all recourse variables at most `b[0]`; recourse variable
`i` at most `b[i+1]`), its objective is the maximized weighted sum of the
recourse variables, and the loop's subproblem call always hands the
oracle such a model. -/
theorem c9_subproblem_model (s : BendersDecomposition) (y : ℚ) (inv : List ℚ)
    (o : Oracle) :
    (subProblemModel s y).vars
        = List.replicate s.number_of_funds ⟨VType.continuous, some 0, none⟩ ∧
    (subProblemModel s y).vars.length = s.number_of_funds ∧
    (subProblemModel s y).infUnbdInfo = true ∧
    (subProblemModel s y).objSense = Sense.maximize ∧
    (subSat (subProblemModel s y) inv ↔ specSubFeasible s y inv) ∧
    subObjVal (subProblemModel s y) inv = specSubObjective s inv ∧
    subCall o s = o.solveSub (s.iteration + 1) (subProblemModel s s.y_star) := by
  refine ⟨rfl, by simp [subProblemModel], rfl, rfl, ?_, rfl, rfl⟩
  constructor
  · rintro ⟨h1, h2, h3, h4⟩
    refine ⟨h1, h2, h3, fun i hi => ?_⟩
    rw [← subLimits_getD s y hi]
    exact h4 i hi
  · rintro ⟨h1, h2, h3, h4⟩
    refine ⟨h1, h2, h3, fun i hi => ?_⟩
    rw [subLimits_getD s y hi]
    exact h4 i hi

/-- C1 counterexample — at the demo configuration, an oracle whose
subproblem solve reports an undefined status (neither Optimal nor
Infeasible) at iteration 1 does not stop the run: a master solve is still
issued and its answer applied (`y_star = 7`, `UB = 100`), a second
iteration runs, and no cut and no failure state exist anywhere. -/
theorem c1_counterexample :
    (subCall oU sW).status = SolverStatus.undefined ∧
    (run oU 2 sW).iteration = 2 ∧
    (run oU 2 sW).feasibility_cuts = [] ∧
    (run oU 2 sW).optimality_cuts = [] ∧
    (run oU 2 sW).y_star = 7 ∧
    (run oU 2 sW).UB = Bnd.val 100 := by
  decide

/-- C1 (amended) — on an undefined subproblem status the loop appends no
cut and leaves `LB` unchanged, but it does not terminate and surfaces no
failure: the iteration counter advances and the master solve is still
issued, its answer overwriting `y_star` and `UB`. -/
theorem c1_undefined_not_fatal (o : Oracle) (s : BendersDecomposition)
    (h : (subCall o s).status = SolverStatus.undefined) :
    (iterate o s).feasibility_cuts = s.feasibility_cuts ∧
    (iterate o s).optimality_cuts = s.optimality_cuts ∧
    (iterate o s).LB = s.LB ∧
    (iterate o s).iteration = s.iteration + 1 ∧
    (iterate o s).y_star = (masterCall o s).1 ∧
    (iterate o s).UB = Bnd.val (masterCall o s).2 := by
  refine ⟨?_, ?_, ?_, iterate_iteration o s, rfl, rfl⟩ <;>
    simp [iterate, midState, h]

theorem c1_witness :
    (iterate oU sW).feasibility_cuts = sW.feasibility_cuts ∧
    (iterate oU sW).optimality_cuts = sW.optimality_cuts ∧
    (iterate oU sW).LB = sW.LB ∧
    (iterate oU sW).iteration = sW.iteration + 1 ∧
    (iterate oU sW).y_star = (masterCall oU sW).1 ∧
    (iterate oU sW).UB = Bnd.val (masterCall oU sW).2 :=
  c1_undefined_not_fatal oU sW (by decide)

/-- C5 counterexample — with an oracle reporting an undefined subproblem
status, one loop iteration completes (the iteration counter advances to 1
and the loop moves on to the master solve) while zero cuts are appended,
refuting "exactly one cut per completed iteration, never zero". -/
theorem c5_counterexample :
    (run oU 1 sW).iteration = 1 ∧
    (run oU 1 sW).feasibility_cuts.length = 0 ∧
    (run oU 1 sW).optimality_cuts.length = 0 := by
  decide

theorem iterate_fcuts (o : Oracle) (s : BendersDecomposition) :
    (iterate o s).feasibility_cuts
      = s.feasibility_cuts
        ++ (if (subCall o s).status = SolverStatus.infeasible
            then [(subCall o s).duals] else []) := by
  cases h : (subCall o s).status <;> simp [iterate, midState, h]

theorem iterate_ocuts (o : Oracle) (s : BendersDecomposition) :
    (iterate o s).optimality_cuts
      = s.optimality_cuts
        ++ (if (subCall o s).status = SolverStatus.optimal
            then [(subCall o s).duals] else []) := by
  cases h : (subCall o s).status <;> simp [iterate, midState, h]

theorem run_cuts_append (o : Oracle) : ∀ (f : ℕ) (s : BendersDecomposition),
    (∃ t, (run o f s).feasibility_cuts = s.feasibility_cuts ++ t) ∧
    (∃ t, (run o f s).optimality_cuts = s.optimality_cuts ++ t) := by
  intro f
  induction f with
  | zero => intro s; exact ⟨⟨[], by simp [run]⟩, ⟨[], by simp [run]⟩⟩
  | succ k ih =>
      intro s
      cases hg : gapGT s.UB s.LB s.epsilon
      · exact ⟨⟨[], by simp [run, hg]⟩, ⟨[], by simp [run, hg]⟩⟩
      · obtain ⟨⟨t1, h1⟩, ⟨t2, h2⟩⟩ := ih (iterate o s)
        refine ⟨⟨?_, ?_⟩, ⟨?_, ?_⟩⟩
        · exact (if (subCall o s).status = SolverStatus.infeasible
            then [(subCall o s).duals] else []) ++ t1
        · simp only [run, hg, if_true]
          rw [h1, iterate_fcuts, List.append_assoc]
        · exact (if (subCall o s).status = SolverStatus.optimal
            then [(subCall o s).duals] else []) ++ t2
        · simp only [run, hg, if_true]
          rw [h2, iterate_ocuts, List.append_assoc]

/-- C5 (amended) — per completed iteration, the feasibility-cut list is
extended exactly by the subproblem duals when the status is Infeasible
and is untouched otherwise; the optimality-cut list is extended exactly
by the duals when the status is Optimal and untouched otherwise; so the
total cut count grows by one on an Optimal or Infeasible iteration and by
zero on an undefined-status iteration; and across the whole run both
lists only ever grow by appending (no cut is removed or mutated). -/
theorem c5_cut_discipline (o : Oracle) (s : BendersDecomposition) (f : ℕ) :
    ((iterate o s).feasibility_cuts
        = s.feasibility_cuts
          ++ (if (subCall o s).status = SolverStatus.infeasible
              then [(subCall o s).duals] else [])) ∧
    ((iterate o s).optimality_cuts
        = s.optimality_cuts
          ++ (if (subCall o s).status = SolverStatus.optimal
              then [(subCall o s).duals] else [])) ∧
    ((iterate o s).feasibility_cuts.length + (iterate o s).optimality_cuts.length
        = s.feasibility_cuts.length + s.optimality_cuts.length
          + (if (subCall o s).status = SolverStatus.undefined then 0 else 1)) ∧
    (∃ t, (run o f s).feasibility_cuts = s.feasibility_cuts ++ t) ∧
    (∃ t, (run o f s).optimality_cuts = s.optimality_cuts ++ t) := by
  refine ⟨iterate_fcuts o s, iterate_ocuts o s, ?_,
    (run_cuts_append o f s).1, (run_cuts_append o f s).2⟩
  rw [iterate_fcuts, iterate_ocuts]
  cases h : (subCall o s).status <;> simp [h] <;> omega

/-! ## Convergence and termination (C2) -/

theorem run_stable (o : Oracle) {s : BendersDecomposition}
    (h : gapGT s.UB s.LB s.epsilon = false) :
    ∀ f, run o f s = s := by
  intro f
  cases f with
  | zero => rfl
  | succ k => simp [run, h]

theorem run_converged_frozen (o : Oracle) :
    ∀ (f : ℕ) (g : ℕ) (s : BendersDecomposition),
    gapGT (run o f s).UB (run o f s).LB (run o f s).epsilon = false →
    run o (f + g) s = run o f s := by
  intro f
  induction f with
  | zero =>
      intro g s h
      simp only [run] at h
      simpa [Nat.zero_add, run] using run_stable o h g
  | succ k ih =>
      intro g s h
      cases hg : gapGT s.UB s.LB s.epsilon
      · rw [run_stable o hg, run_stable o hg]
      · have hstep : run o (k + 1) s = run o k (iterate o s) := by simp [run, hg]
        have hstepg : run o (k + 1 + g) s = run o (k + g) (iterate o s) := by
          have : k + 1 + g = (k + g) + 1 := by omega
          rw [this]; simp [run, hg]
        rw [hstep] at h
        rw [hstepg, hstep]
        exact ih g (iterate o s) h

/-- C2 — once a run has reached convergence (the loop guard
`UB − LB > epsilon` fails at the state the run has produced), it has
terminated: more fuel changes nothing, and the run's result — the pair of
the final decision and the final upper bound — is exactly the
`(y_star, UB)` of that converged state. -/
theorem c2_converged_result (o : Oracle) (f g : ℕ) (s : BendersDecomposition)
    (h : gapGT (run o f s).UB (run o f s).LB (run o f s).epsilon = false) :
    run o (f + g) s = run o f s ∧
    runResult (run o (f + g) s) = ((run o f s).y_star, (run o f s).UB) := by
  have h1 := run_converged_frozen o f g s h
  exact ⟨h1, by rw [h1]; rfl⟩

theorem c2_witness :
    run oInf (0 + 2) sC = run oInf 0 sC ∧
    runResult (run oInf (0 + 2) sC) = ((run oInf 0 sC).y_star, (run oInf 0 sC).UB) :=
  c2_converged_result oInf 0 2 sC (by norm_num [run, sC, gapGT])

/-! ## Master constraints from the cut store (C7) -/

theorem cutExpr_eq_specCutExpr (s : BendersDecomposition)
    (hb : s.b.length = s.number_of_funds + 1) (d : List ℚ) (y : ℚ) :
    cutExpr (masterProblemModel s) d y = specCutExpr s d y := by
  unfold cutExpr specCutExpr
  simp only [masterProblemModel]
  rw [hb]
  exact (sumTo_congr (fun i _ => mul_comm _ _)).symm

/-- C7 — the master model is built from the full current cut store (every
feasibility cut and every optimality cut, never a subset), and for each
stored dual vector the constraint the code builds coincides with the
spec's `Σ d_i·(b_i − B_i·y)` form ranging over all `len(b)` entries: the
satisfaction predicates of the built model and of the spec's constraints
agree at every point. -/
theorem c7_master_receives_all_cuts (s : BendersDecomposition)
    (hb : s.b.length = s.number_of_funds + 1) :
    (masterProblemModel s).fcuts = s.feasibility_cuts ∧
    (masterProblemModel s).ocuts = s.optimality_cuts ∧
    (∀ d y, cutExpr (masterProblemModel s) d y = specCutExpr s d y) ∧
    (∀ y z, masterSat (masterProblemModel s) y z ↔ specMasterSat s y z) := by
  refine ⟨rfl, rfl, cutExpr_eq_specCutExpr s hb, fun y z => ?_⟩
  constructor
  · rintro ⟨h1, h2, h3, h4, h5⟩
    refine ⟨h1, h2, h3, fun d hd => ?_, fun d hd => ?_⟩
    · rw [← cutExpr_eq_specCutExpr s hb]
      exact h4 d hd
    · rw [← cutExpr_eq_specCutExpr s hb]
      exact h5 d hd
  · rintro ⟨h1, h2, h3, h4, h5⟩
    refine ⟨h1, h2, h3, fun d hd => ?_, fun d hd => ?_⟩
    · rw [cutExpr_eq_specCutExpr s hb]
      exact h4 d hd
    · rw [cutExpr_eq_specCutExpr s hb]
      exact h5 d hd

theorem c7_witness :
    sCuts.b.length = sCuts.number_of_funds + 1 ∧
    ((masterProblemModel sCuts).fcuts = sCuts.feasibility_cuts ∧
     (masterProblemModel sCuts).ocuts = sCuts.optimality_cuts ∧
     (∀ d y, cutExpr (masterProblemModel sCuts) d y = specCutExpr sCuts d y) ∧
     (∀ y z, masterSat (masterProblemModel sCuts) y z ↔ specMasterSat sCuts y z)) :=
  ⟨by decide, c7_master_receives_all_cuts sCuts (by decide)⟩

/-! ## Lower-bound updates (C8) -/

theorem iterate_LB_optimal (o : Oracle) (s : BendersDecomposition)
    (h : (subCall o s).status = SolverStatus.optimal) :
    (iterate o s).LB
      = Bnd.max s.LB
          (Bnd.val (s.savings_account_return * s.y_star + (subCall o s).objVal)) := by
  simp [iterate, midState, h]

theorem iterate_LB_not_optimal (o : Oracle) (s : BendersDecomposition)
    (h : (subCall o s).status ≠ SolverStatus.optimal) :
    (iterate o s).LB = s.LB := by
  cases hs : (subCall o s).status with
  | optimal => exact absurd hs h
  | infeasible => simp [iterate, midState, hs]
  | undefined => simp [iterate, midState, hs]

theorem run_LB_no_optimal (o : Oracle)
    (hno : ∀ k m, (o.solveSub k m).status ≠ SolverStatus.optimal) :
    ∀ (f : ℕ) (s : BendersDecomposition), (run o f s).LB = s.LB := by
  intro f
  induction f with
  | zero => intro s; rfl
  | succ k ih =>
      intro s
      cases hg : gapGT s.UB s.LB s.epsilon
      · simp [run, hg]
      · have : (iterate o s).LB = s.LB := iterate_LB_not_optimal o s (hno _ _)
        simp [run, hg, ih, this]

/-- C8 — an Optimal subproblem result with objective value `v` updates
`LB` to `max(LB, savingsReturn·y_star + v)`; an Infeasible result leaves
`LB` unchanged; and on a run whose subproblem solves are never Optimal,
`LB` stays at its initial `−inf`. -/
theorem c8_lb_update (o : Oracle) (s : BendersDecomposition) (f : ℕ)
    (fr : List ℚ) (sr y0 : ℚ) (T : ℤ) (ε : ℚ) :
    ((subCall o s).status = SolverStatus.optimal →
       (iterate o s).LB
         = Bnd.max s.LB
             (Bnd.val (s.savings_account_return * s.y_star + (subCall o s).objVal))) ∧
    ((subCall o s).status = SolverStatus.infeasible → (iterate o s).LB = s.LB) ∧
    ((∀ k m, (o.solveSub k m).status ≠ SolverStatus.optimal) →
       (run o f (BendersDecomposition.init fr sr y0 T ε)).LB = Bnd.negInf) := by
  refine ⟨iterate_LB_optimal o s, ?_, ?_⟩
  · intro h
    exact iterate_LB_not_optimal o s (by rw [h]; exact fun hc => nomatch hc)
  · intro hno
    exact run_LB_no_optimal o hno f _

theorem c8_witness :
    (iterate oInf sW).LB = sW.LB ∧
    (run oInf 3 (BendersDecomposition.init [2, 6] 4 500 200 (1 / 10))).LB = Bnd.negInf :=
  ⟨(c8_lb_update oInf sW 3 [2, 6] 4 500 200 (1 / 10)).2.1 (by decide),
   (c8_lb_update oInf sW 3 [2, 6] 4 500 200 (1 / 10)).2.2 (fun k m => by simp [oInf])⟩

/-! ## Bound monotonicity (C6) -/

theorem Bnd.ble_refl : ∀ x : Bnd, Bnd.ble x x = true := by
  intro x
  cases x with
  | negInf => rfl
  | posInf => rfl
  | val q => simp [Bnd.ble]

theorem Bnd.ble_max_left : ∀ x v : Bnd, Bnd.ble x (Bnd.max x v) = true := by
  intro x v
  cases x <;> cases v <;> simp [Bnd.ble, Bnd.max, le_max_left]

theorem iterate_LB_mono (o : Oracle) (s : BendersDecomposition) :
    Bnd.ble s.LB (iterate o s).LB = true := by
  cases hs : (subCall o s).status with
  | optimal =>
      rw [iterate_LB_optimal o s hs]
      exact Bnd.ble_max_left _ _
  | infeasible =>
      rw [iterate_LB_not_optimal o s (by rw [hs]; exact fun hc => nomatch hc)]
      exact Bnd.ble_refl _
  | undefined =>
      rw [iterate_LB_not_optimal o s (by rw [hs]; exact fun hc => nomatch hc)]
      exact Bnd.ble_refl _

theorem midState_fcuts (o : Oracle) (s : BendersDecomposition) :
    (midState o s).feasibility_cuts
      = s.feasibility_cuts
        ++ (if (subCall o s).status = SolverStatus.infeasible
            then [(subCall o s).duals] else []) := iterate_fcuts o s

theorem midState_ocuts (o : Oracle) (s : BendersDecomposition) :
    (midState o s).optimality_cuts
      = s.optimality_cuts
        ++ (if (subCall o s).status = SolverStatus.optimal
            then [(subCall o s).duals] else []) := iterate_ocuts o s

theorem cutExpr_midState (o : Oracle) (s : BendersDecomposition) (d : List ℚ) (y : ℚ) :
    cutExpr (masterProblemModel (midState o s)) d y
      = cutExpr (masterProblemModel s) d y := by
  unfold cutExpr
  simp only [masterProblemModel, midState_nfunds, midState_b, midState_B]

/-- With the iteration's new cut appended, the master model only gains
constraints: any point satisfying the model built after the cut append
also satisfies the model built from the pre-iteration state. -/
theorem masterSat_midState_imp (o : Oracle) (s : BendersDecomposition) {y z : ℚ}
    (h : masterSat (masterProblemModel (midState o s)) y z) :
    masterSat (masterProblemModel s) y z := by
  obtain ⟨h1, h2, h3, h4, h5⟩ := h
  refine ⟨h1, h2, h3, fun d hd => ?_, fun d hd => ?_⟩
  · have hd2 : d ∈ (midState o s).feasibility_cuts := by
      rw [midState_fcuts]
      exact List.mem_append_left _ hd
    have hx := h4 d hd2
    rwa [cutExpr_midState] at hx
  · have hd2 : d ∈ (midState o s).optimality_cuts := by
      rw [midState_ocuts]
      exact List.mem_append_left _ hd
    have hx := h5 d hd2
    rw [cutExpr_midState] at hx
    have hsr : (masterProblemModel (midState o s)).sr = (masterProblemModel s).sr :=
      midState_sr o s
    rwa [hsr] at hx

/-- One loop iteration under an exact master answer: the upper-bound
invariant is preserved and the new `UB` does not exceed the old one. -/
theorem ub_step (o : Oracle) (s : BendersDecomposition)
    (hInv : UBInv s) (hOpt : MasterOptAt o s) :
    UBInv (iterate o s) ∧ Bnd.ble (iterate o s).UB s.UB = true := by
  obtain ⟨hfeas, hub⟩ := hOpt
  constructor
  · exact Or.inr ⟨(masterCall o s).2, rfl, ⟨(masterCall o s).1, hfeas⟩, hub⟩
  · cases hInv with
    | inl h =>
        show Bnd.ble (Bnd.val (masterCall o s).2) s.UB = true
        rw [h]
        rfl
    | inr h =>
        obtain ⟨q, hq, hex, hmax⟩ := h
        have hle : (masterCall o s).2 ≤ q := hmax _ _ (masterSat_midState_imp o s hfeas)
        show Bnd.ble (Bnd.val (masterCall o s).2) s.UB = true
        rw [hq]
        simp [Bnd.ble, hle]

theorem ub_inv_steps (o : Oracle) (s0 : BendersDecomposition) (h0 : UBInv s0)
    (ho : ∀ j, MasterOptAt o (steps o s0 j)) :
    ∀ k, UBInv (steps o s0 k) := by
  intro k
  induction k with
  | zero => exact h0
  | succ k ih => exact (ub_step o (steps o s0 k) ih (ho k)).1

theorem steps_shift (o : Oracle) (s : BendersDecomposition) :
    ∀ j, steps o (iterate o s) j = steps o s (j + 1) := by
  intro j
  induction j with
  | zero => rfl
  | succ k ih =>
      show iterate o (steps o (iterate o s) k) = iterate o (steps o s (k + 1))
      rw [ih]

/-- The state a fueled run returns is one of the iteration-sequence
states, reached after at most `fuel` iterations. -/
theorem run_eq_steps (o : Oracle) : ∀ (f : ℕ) (s : BendersDecomposition),
    ∃ j, j ≤ f ∧ run o f s = steps o s j := by
  intro f
  induction f with
  | zero => intro s; exact ⟨0, Nat.le_refl 0, rfl⟩
  | succ k ih =>
      intro s
      cases hg : gapGT s.UB s.LB s.epsilon
      · exact ⟨0, Nat.zero_le _, by simp [run, hg, steps]⟩
      · obtain ⟨j, hj, hr⟩ := ih (iterate o s)
        refine ⟨j + 1, Nat.succ_le_succ hj, ?_⟩
        rw [show run o (k + 1) s = run o k (iterate o s) by simp [run, hg], hr,
          steps_shift]

/-- C6 — from the initial bounds `LB = −inf`, `UB = +inf`, and under the
spec's Solver contract that every master answer of the run is an exact
optimum of the model it is handed, the bounds are monotone across every
iteration: `LB` never decreases and `UB` never increases; and every
fueled run ends at one of these iteration states. -/
theorem c6_monotone_bounds (o : Oracle) (fr : List ℚ) (sr y0 : ℚ) (T : ℤ) (ε : ℚ)
    (ho : ∀ j, MasterOptAt o (steps o (BendersDecomposition.init fr sr y0 T ε) j)) :
    (BendersDecomposition.init fr sr y0 T ε).LB = Bnd.negInf ∧
    (BendersDecomposition.init fr sr y0 T ε).UB = Bnd.posInf ∧
    (∀ k,
      Bnd.ble (steps o (BendersDecomposition.init fr sr y0 T ε) k).LB
        (steps o (BendersDecomposition.init fr sr y0 T ε) (k + 1)).LB = true ∧
      Bnd.ble (steps o (BendersDecomposition.init fr sr y0 T ε) (k + 1)).UB
        (steps o (BendersDecomposition.init fr sr y0 T ε) k).UB = true) ∧
    (∀ f, ∃ j, j ≤ f ∧
      run o f (BendersDecomposition.init fr sr y0 T ε)
        = steps o (BendersDecomposition.init fr sr y0 T ε) j) := by
  refine ⟨rfl, rfl, fun k => ⟨iterate_LB_mono o _, ?_⟩, fun f => run_eq_steps o f _⟩
  exact (ub_step o _ (ub_inv_steps o _ (Or.inl rfl) ho k) (ho k)).2

/-! Witness infrastructure for C6: the oracle `oW` on the empty-funds,
zero-return configuration returns exact master optima at every step. -/

theorem subCall_oW_status (t : BendersDecomposition) :
    (subCall oW t).status = SolverStatus.optimal := rfl

theorem subCall_oW_duals (t : BendersDecomposition) :
    (subCall oW t).duals = [0] := rfl

theorem cutExpr_zero_dual (m : MasterModel) (y : ℚ) : cutExpr m [0] y = 0 := by
  apply sumTo_eq_zero
  intro i _
  rw [getD_singleton_zero, mul_zero]

theorem oW_masterOptAt (t : BendersDecomposition)
    (hsr : t.savings_account_return = 0)
    (hfc : t.feasibility_cuts = [])
    (hoc : ∀ d ∈ t.optimality_cuts, d = [0]) :
    MasterOptAt oW t := by
  have hsr2 : (masterProblemModel (midState oW t)).sr = 0 := by
    show (midState oW t).savings_account_return = 0
    rw [midState_sr]
    exact hsr
  have hocuts : ∀ d ∈ (masterProblemModel (midState oW t)).ocuts, d = [0] := by
    intro d hd
    have hd2 : d ∈ (midState oW t).optimality_cuts := hd
    rw [midState_ocuts, subCall_oW_status] at hd2
    rcases List.mem_append.mp hd2 with h | h
    · exact hoc d h
    · simpa using h
  constructor
  · show masterSat (masterProblemModel (midState oW t)) 0 0
    refine ⟨⟨0, by norm_num⟩, le_refl 0, le_refl 0, fun d hd => ?_, fun d hd => ?_⟩
    · have hd2 : d ∈ (midState oW t).feasibility_cuts := hd
      rw [midState_fcuts, subCall_oW_status, hfc] at hd2
      simp at hd2
    · rw [hocuts d hd, hsr2, cutExpr_zero_dual, zero_mul, zero_add]
  · intro y z hsat
    obtain ⟨h1, h2, h3, h4, h5⟩ := hsat
    have hmem : ([0] : List ℚ) ∈ (masterProblemModel (midState oW t)).ocuts := by
      show ([0] : List ℚ) ∈ (midState oW t).optimality_cuts
      rw [midState_ocuts, subCall_oW_status, subCall_oW_duals]
      simp
    have h50 := h5 [0] hmem
    rw [hsr2, zero_mul, zero_add, cutExpr_zero_dual] at h50
    exact h50

theorem oW_trace (j : ℕ) :
    (steps oW sZ j).savings_account_return = 0 ∧
    (steps oW sZ j).feasibility_cuts = [] ∧
    (∀ d ∈ (steps oW sZ j).optimality_cuts, d = [0]) := by
  induction j with
  | zero => exact ⟨rfl, rfl, fun d hd => absurd hd (List.not_mem_nil d)⟩
  | succ k ih =>
      obtain ⟨h1, h2, h3⟩ := ih
      refine ⟨?_, ?_, ?_⟩
      · show (iterate oW (steps oW sZ k)).savings_account_return = 0
        rw [iterate_sr]
        exact h1
      · show (iterate oW (steps oW sZ k)).feasibility_cuts = []
        rw [iterate_fcuts, subCall_oW_status, h2]
        simp
      · show ∀ d ∈ (iterate oW (steps oW sZ k)).optimality_cuts, d = [0]
        intro d hd
        rw [iterate_ocuts, subCall_oW_status] at hd
        rcases List.mem_append.mp hd with h | h
        · exact h3 d h
        · simpa using h

theorem oW_master_opt_all : ∀ j, MasterOptAt oW (steps oW sZ j) := fun j =>
  oW_masterOptAt _ (oW_trace j).1 (oW_trace j).2.1 (oW_trace j).2.2

theorem c6_witness :
    (BendersDecomposition.init [] 0 0 0 1).LB = Bnd.negInf ∧
    (BendersDecomposition.init [] 0 0 0 1).UB = Bnd.posInf ∧
    (∀ k,
      Bnd.ble (steps oW (BendersDecomposition.init [] 0 0 0 1) k).LB
        (steps oW (BendersDecomposition.init [] 0 0 0 1) (k + 1)).LB = true ∧
      Bnd.ble (steps oW (BendersDecomposition.init [] 0 0 0 1) (k + 1)).UB
        (steps oW (BendersDecomposition.init [] 0 0 0 1) k).UB = true) ∧
    (∀ f, ∃ j, j ≤ f ∧
      run oW f (BendersDecomposition.init [] 0 0 0 1)
        = steps oW (BendersDecomposition.init [] 0 0 0 1) j) :=
  c6_monotone_bounds oW [] 0 0 0 1 oW_master_opt_all

end Benders
